import Mathlib

/-!
Shallow embedding of the NIRCam NRC-23 CMD/PSF-photometry comparison notebook
(`NRC-23_cmd_psf_phot.ipynb`).  Floating-point quantities of the notebook
(pixel coordinates, fluxes, magnitudes, sky coordinates in degrees, angular
separations in arcseconds) are modelled by rationals; the external library
calls (`log10`, the per-image WCS mapping, and the angular-separation metric
underlying `match_coordinates_sky`) are uninterpreted function parameters.
Photometry tables become lists of records; the table columns the script never
touches are collected in an `extra` field.
-/

namespace NRC23

/-- Sky coordinate: (RA, Dec) in degrees, as produced by `SkyCoord(ra, dec, unit=deg)`. -/
abbrev Coord := ℚ × ℚ

/-- Row of a loaded PSF-photometry table (`results_1[i]` / `results_2[i]`).
The columns used by the script are `x_fit`, `y_fit`, `flux_fit`, `flux_unc`;
all remaining columns are abstracted into `extra`. -/
structure PhotRow where
  x_fit : ℚ
  y_fit : ℚ
  flux_fit : ℚ
  flux_unc : ℚ
  extra : List ℚ
  deriving DecidableEq

instance : Inhabited PhotRow := ⟨⟨0, 0, 0, 0, []⟩⟩

/-- Row of a cleaned table (`result_clean_i`): the original row with the two
added columns `filt+'_inst'` (instrumental magnitude) and `'e'+filt+'_inst'`
(magnitude error). -/
structure CleanRow where
  base : PhotRow
  mag_inst : ℚ
  emag_inst : ℚ
  deriving DecidableEq

instance : Inhabited CleanRow := ⟨⟨default, 0, 0⟩⟩

/-- Row of a final table (`result_final_i`): the cleaned row with the added
`radec` column. -/
structure FinalRow where
  clean : CleanRow
  radec : Coord
  deriving DecidableEq

instance : Inhabited FinalRow := ⟨⟨default, (0, 0)⟩⟩

/-- Image model: the pieces of `jwst.datamodels.ImageModel` the script uses,
namely `shape` (`shape[0]` = height, `shape[1]` = width) and the WCS mapping
`meta.wcs : (x, y) ↦ (ra, dec)`, kept uninterpreted. -/
structure ImageModel where
  height : ℕ
  width : ℕ
  wcs : ℚ → ℚ → Coord

instance : Inhabited ImageModel := ⟨⟨0, 0, fun _ _ => (0, 0)⟩⟩

/-- Row of the LMC point-source catalog as read by `pd.read_csv(...,
usecols=(0,1,2,5,13))`: columns `index`, `ra_in`, `dec_in`, `F115W`, `F200W`.
The two magnitude columns are named `mag1` (filter 1 = F115W) and `mag2`
(filter 2 = F200W). -/
structure CatRow where
  index : ℚ
  ra_in : ℚ
  dec_in : ℚ
  mag1 : ℚ
  mag2 : ℚ
  deriving DecidableEq

instance : Inhabited CatRow := ⟨⟨0, 0, 0, 0, 0⟩⟩

/-- Row of `match_phot_inp`: columns `radec`, `filt1`, `filt2`. -/
structure InpRow where
  radec : Coord
  mag1 : ℚ
  mag2 : ℚ
  deriving DecidableEq

/-! ### Cleaning step (notebook section 3.4) -/

/-- Per-row boolean of `mask_1` / `mask_2`:
`(x_fit > 0) & (x_fit < shape[1]) & (y_fit > 0) & (y_fit < shape[0]) & (flux_fit > 0)`,
with `W = shape[1]` and `H = shape[0]`. -/
def rowMask (W H : ℚ) (r : PhotRow) : Bool :=
  decide (0 < r.x_fit) && decide (r.x_fit < W) &&
  decide (0 < r.y_fit) && decide (r.y_fit < H) &&
  decide (0 < r.flux_fit)

/-- Cleaning of one table (`result_clean_i = results[i][mask]` followed by the
two added magnitude columns `-2.5*np.log10(flux_fit)` and
`1.086*(flux_unc/flux_fit)`). -/
def result_clean (log10 : ℚ → ℚ) (W H : ℚ) (rows : List PhotRow) : List CleanRow :=
  (rows.filter (rowMask W H)).map fun r =>
    { base := r
      mag_inst := -(5 / 2) * log10 r.flux_fit
      emag_inst := (543 / 500) * (r.flux_unc / r.flux_fit) }

/-- Cleaning loop over one filter set (`for i in np.arange(0, len(images), 1)`):
every iteration builds its mask from `images[0].shape`, not `images[i].shape`. -/
def results_clean (log10 : ℚ → ℚ) (images : List ImageModel)
    (results : List (List PhotRow)) : List (List CleanRow) :=
  match images with
  | [] => []
  | im0 :: rest =>
      (List.range (im0 :: rest).length).map fun i =>
        result_clean log10 (im0.width : ℚ) (im0.height : ℚ) (results.getD i [])

/-! ### Pixel-to-sky step (notebook section 4) -/

/-- Loop adding the `radec` column: for each `i`,
`ra, dec = images[i].meta.wcs(result['x_fit'], result['y_fit'])` followed by
`result['radec'] = SkyCoord(ra, dec, unit='deg')`. -/
def results_final (images : List ImageModel) (cleans : List (List CleanRow)) :
    List (List FinalRow) :=
  (List.range images.length).map fun i =>
    (cleans.getD i []).map fun r =>
      { clean := r, radec := (images.getD i default).wcs r.base.x_fit r.base.y_fit }

/-! ### Cross-match step (notebook sections 5 and 6.3) -/

/-- Threshold constant `max_sep = 0.5` (pixels). -/
def max_sep : ℚ := 1 / 2

/-- Pixel-scale constant `pixelscale = 0.031` (arcsec per pixel). -/
def pixelscale : ℚ := 31 / 1000

/-- Per-source boolean of `sep_constraint` / `sep_constraint_inp`:
`(d2d.arcsec / pixelscale) < max_sep`, where `d2dArcsec` is the separation to
the nearest neighbour in arcseconds. -/
def sep_ok (d2dArcsec : ℚ) : Bool :=
  decide (d2dArcsec / pixelscale < max_sep)

/-- Nearest-neighbour search of `match_coordinates_sky` for one source:
index of (and separation to) the catalog entry at minimal separation, the
first such index on ties (as `numpy.argmin` would return). `sep` is the
angular-separation metric in arcseconds, kept uninterpreted. -/
def argminSep (sep : Coord → Coord → ℚ) (p : Coord) : List Coord → Option (ℕ × ℚ)
  | [] => none
  | c :: cs =>
      match argminSep sep p cs with
      | none => some (0, sep p c)
      | some (j, m) => if sep p c ≤ m then some (0, sep p c) else some (j + 1, m)

/-- Result of `match_coordinates_sky` for one source (`idx`, `d2d.arcsec`),
defaulting to `(0, 0)` on an empty catalog (the real call would fail there). -/
def nn (sep : Coord → Coord → ℚ) (coords : List Coord) (p : Coord) : ℕ × ℚ :=
  (argminSep sep p coords).getD (0, 0)

/-- Component `idx` of `match_coordinates_sky(p, cat['radec'])` for one source. -/
def idxOf (sep : Coord → Coord → ℚ) (cat : List FinalRow) (p : Coord) : ℕ :=
  (nn sep (cat.map FinalRow.radec) p).1

/-- Component `d2d.arcsec` of `match_coordinates_sky(p, cat['radec'])` for one
source. -/
def d2dOf (sep : Coord → Coord → ℚ) (cat : List FinalRow) (p : Coord) : ℚ :=
  (nn sep (cat.map FinalRow.radec) p).2

/-- Boolean-mask indexing `table[mask]` of numpy/astropy: keep the entries of
`xs` whose positional flag in `bs` is `true`. -/
def maskFilter : List α → List Bool → List α
  | [], _ => []
  | _ :: _, [] => []
  | x :: xs, b :: bs => if b then x :: maskFilter xs bs else maskFilter xs bs

/-- Two-filter cross-match of one pair of final catalogs (notebook section 5):
`idx, d2d, _ = match_coordinates_sky(res1['radec'], res2['radec'])`;
`sep_constraint = (d2d.arcsec / pixelscale) < max_sep`;
`match_phot_1 = res1[sep_constraint]`; `match_phot_2 = res2[idx[sep_constraint]]`. -/
def crossMatch (sep : Coord → Coord → ℚ) (res1 res2 : List FinalRow) :
    List FinalRow × List FinalRow :=
  let mask := res1.map fun r => sep_ok (d2dOf sep res2 r.radec)
  (maskFilter res1 mask,
   maskFilter (res1.map fun r => res2.getD (idxOf sep res2 r.radec) default) mask)

/-- Double loop of section 5 (`for res1 in results_final_1: for res2 in
results_final_2: ...`), collecting the pairs `(match_phot_1, match_phot_2)`
appended to `matches_phot_1` / `matches_phot_2`. -/
def matches_phot (sep : Coord → Coord → ℚ)
    (finals1 finals2 : List (List FinalRow)) :
    List (List FinalRow × List FinalRow) :=
  (finals1.map fun res1 => finals2.map fun res2 => crossMatch sep res1 res2).flatten

/-- Reference cross-match (notebook section 6.3):
`idx_inp, d2d_inp, _ = match_coordinates_sky(radec_input, catalog1['radec'])`;
`sep_constraint_inp = (d2d_inp.arcsec / pixelscale) < max_sep`;
`match_phot_inp` = masked `radec`/`filt1`/`filt2` columns of `cat_sel`;
`match_phot_out_1 = catalog1[idx_inp[sep_constraint_inp]]`;
`match_phot_out_2 = catalog2[idx_inp[sep_constraint_inp]]`. -/
def crossMatchInput (sep : Coord → Coord → ℚ) (catSel : List CatRow)
    (catalog1 catalog2 : List FinalRow) :
    List InpRow × List FinalRow × List FinalRow :=
  let mask := catSel.map fun c => sep_ok (d2dOf sep catalog1 (c.ra_in, c.dec_in))
  ((maskFilter catSel mask).map fun c => ⟨(c.ra_in, c.dec_in), c.mag1, c.mag2⟩,
   maskFilter (catSel.map fun c => catalog1.getD (idxOf sep catalog1 (c.ra_in, c.dec_in)) default) mask,
   maskFilter (catSel.map fun c => catalog2.getD (idxOf sep catalog1 (c.ra_in, c.dec_in)) default) mask)

/-! ### Field-of-view selection (notebook section 6.2) -/

/-- Two-element `sorted([a, b])`. -/
def sorted2 (a b : ℚ) : ℚ × ℚ :=
  if a ≤ b then (a, b) else (b, a)

/-- Field-of-view restriction of the LMC catalog:
`ra_lim0, dec_lim0 = images_1[0].meta.wcs(0, 0)`;
`ra_lim1, dec_lim1 = images_1[0].meta.wcs(xlim1 - 1, ylim1 - 1)` with
`xlim1 = shape[1]`, `ylim1 = shape[0]`; `ra_lim = sorted([ra_lim0, ra_lim1])`;
`dec_lim = [dec_lim0, dec_lim1]` (not sorted); then select the rows with
`ra_lim[0] < ra_in < ra_lim[1]` and `dec_lim[0] < dec_in < dec_lim[1]`. -/
def cat_sel (im : ImageModel) (cat : List CatRow) : List CatRow :=
  let rd0 := im.wcs 0 0
  let rd1 := im.wcs ((im.width : ℚ) - 1) ((im.height : ℚ) - 1)
  let ra_lim := sorted2 rd0.1 rd1.1
  let dec_lim := (rd0.2, rd1.2)
  cat.filter fun c =>
    decide (ra_lim.1 < c.ra_in) && decide (c.ra_in < ra_lim.2) &&
    decide (dec_lim.1 < c.dec_in) && decide (c.dec_in < dec_lim.2)

/-! ### File-system effect (notebook setup cell) -/

/-- Output directory `figures_dir = 'FIGURES/'`. -/
def figures_dir : String := "FIGURES/"

/-- Setup cell `if not os.path.exists(figures_dir): os.makedirs(figures_dir)`,
with the file system modelled as the list of existing paths. -/
def setupFigures (fs : List String) : List String :=
  if figures_dir ∈ fs then fs else figures_dir :: fs

/-- File-system effect of running the whole notebook: the setup cell is the
only cell that writes to the file system (all other cells only read images,
pickles and the catalog; the final `plt.savefig` line is commented out). -/
def pipelineFS (fs : List String) : List String :=
  setupFigures fs

/-! ### Concrete instances for evaluation -/

/-- Degenerate angular-separation metric used to evaluate the cross-match
theorems on concrete inputs. -/
def sepW : Coord → Coord → ℚ := fun _ _ => 0

/-- Concrete `log10` stand-in used for evaluation. -/
def log10W : ℚ → ℚ := fun _ => 0

/-- Concrete 2x2 image. -/
def imSmallW : ImageModel := ⟨2, 2, fun _ _ => (0, 0)⟩

/-- Concrete 100x100 image. -/
def imBigW : ImageModel := ⟨100, 100, fun _ _ => (0, 0)⟩

/-- Concrete detection that is in bounds for `imBigW` but not for `imSmallW`. -/
def rowBigW : PhotRow := ⟨50, 50, 1, 1, []⟩

/-- Concrete one-image list with a nontrivial WCS. -/
def imagesW : List ImageModel := [⟨2, 2, fun x y => (x, y)⟩]

/-- Concrete one-catalog list of cleaned rows. -/
def cleansW : List (List CleanRow) := [[⟨⟨1, 1, 1, 1, []⟩, 0, 0⟩]]

/-- Concrete final-catalog row. -/
def rowW0 : FinalRow := ⟨⟨⟨0, 0, 0, 0, []⟩, 0, 0⟩, (0, 0)⟩

/-- One-row concrete final catalog. -/
def rowsW : List FinalRow := [rowW0]

end NRC23

namespace NRC23

/-- C3: the cleaning step keeps exactly the in-bounds, positive-flux rows. -/
theorem clean_keeps_exactly_valid (log10 : ℚ → ℚ) (W H : ℚ) (rows : List PhotRow) :
    (result_clean log10 W H rows).map CleanRow.base =
      rows.filter (fun r =>
        decide (0 < r.x_fit ∧ r.x_fit < W ∧ 0 < r.y_fit ∧ r.y_fit < H ∧ 0 < r.flux_fit)) := by
  unfold result_clean
  rw [List.map_map]
  have hid : (CleanRow.base ∘ fun r =>
      CleanRow.mk r (-(5 / 2) * log10 r.flux_fit)
        ((543 / 500) * (r.flux_unc / r.flux_fit))) = id := by
    funext r; rfl
  rw [hid, List.map_id]
  congr 1
  funext r
  unfold rowMask
  by_cases h1 : 0 < r.x_fit <;> by_cases h2 : r.x_fit < W <;>
    by_cases h3 : 0 < r.y_fit <;> by_cases h4 : r.y_fit < H <;>
    by_cases h5 : 0 < r.flux_fit <;>
    simp [h1, h2, h3, h4, h5]

/-- C4: every surviving row carries `-2.5*log10(flux_fit)` and
`1.086*(flux_unc/flux_fit)` in its two added columns, its flux is positive,
and its original columns are an unaltered row of the input table. -/
theorem clean_magnitude_columns (log10 : ℚ → ℚ) (W H : ℚ) (rows : List PhotRow) :
    ∀ c ∈ result_clean log10 W H rows,
      c.mag_inst = -(5 / 2) * log10 c.base.flux_fit ∧
      c.emag_inst = (543 / 500) * (c.base.flux_unc / c.base.flux_fit) ∧
      0 < c.base.flux_fit ∧ c.base ∈ rows := by
  intro c hc
  unfold result_clean at hc
  rw [List.mem_map] at hc
  obtain ⟨r, hr, rfl⟩ := hc
  rw [List.mem_filter] at hr
  obtain ⟨hrmem, hmask⟩ := hr
  refine ⟨rfl, rfl, ?_, hrmem⟩
  unfold rowMask at hmask
  simp only [Bool.and_eq_true, decide_eq_true_eq] at hmask
  exact hmask.2

/-- Witness for C4 on a concrete one-row table. -/
theorem clean_magnitude_columns_witness :
    (CleanRow.mk ⟨1, 1, 2, 1, []⟩ (-(5 / 2) * 0) ((543 / 500) * (1 / 2))) ∈
        result_clean (fun _ => 0) 10 10 [⟨1, 1, 2, 1, []⟩] ∧
      ((CleanRow.mk ⟨1, 1, 2, 1, []⟩ (-(5 / 2) * 0) ((543 / 500) * (1 / 2))).mag_inst =
          -(5 / 2) * (fun _ : ℚ => (0 : ℚ))
            (CleanRow.mk ⟨1, 1, 2, 1, []⟩ (-(5 / 2) * 0) ((543 / 500) * (1 / 2))).base.flux_fit ∧
        (CleanRow.mk ⟨1, 1, 2, 1, []⟩ (-(5 / 2) * 0) ((543 / 500) * (1 / 2))).emag_inst =
          (543 / 500) *
            ((CleanRow.mk ⟨1, 1, 2, 1, []⟩ (-(5 / 2) * 0) ((543 / 500) * (1 / 2))).base.flux_unc /
              (CleanRow.mk ⟨1, 1, 2, 1, []⟩ (-(5 / 2) * 0) ((543 / 500) * (1 / 2))).base.flux_fit) ∧
        0 < (CleanRow.mk ⟨1, 1, 2, 1, []⟩ (-(5 / 2) * 0) ((543 / 500) * (1 / 2))).base.flux_fit ∧
        (CleanRow.mk ⟨1, 1, 2, 1, []⟩ (-(5 / 2) * 0) ((543 / 500) * (1 / 2))).base ∈
          [(⟨1, 1, 2, 1, []⟩ : PhotRow)]) := by
  have hmem : (CleanRow.mk ⟨1, 1, 2, 1, []⟩ (-(5 / 2) * 0) ((543 / 500) * (1 / 2))) ∈
      result_clean (fun _ => 0) 10 10 [⟨1, 1, 2, 1, []⟩] := by
    unfold result_clean rowMask
    norm_num
  exact ⟨hmem, clean_magnitude_columns (fun _ => 0) 10 10 [⟨1, 1, 2, 1, []⟩] _ hmem⟩

/-! ### Helper lemmas on boolean-mask indexing and nearest-neighbour search -/

theorem maskFilter_map_self (f : α → Bool) (xs : List α) :
    maskFilter xs (xs.map f) = xs.filter f := by
  induction xs with
  | nil => rfl
  | cons x xs ih =>
      by_cases h : f x <;> simp [maskFilter, List.filter_cons, h, ih]

theorem mem_of_mem_maskFilter {xs : List α} {bs : List Bool} {a : α}
    (h : a ∈ maskFilter xs bs) : a ∈ xs := by
  induction xs generalizing bs with
  | nil => simp [maskFilter] at h
  | cons x xs ih =>
      cases bs with
      | nil => simp [maskFilter] at h
      | cons b bs =>
          cases b with
          | false => exact List.mem_cons_of_mem x (ih (by simpa [maskFilter] using h))
          | true =>
              simp only [maskFilter, if_true, List.mem_cons] at h
              rcases h with rfl | h
              · exact List.mem_cons_self _ _
              · exact List.mem_cons_of_mem _ (ih h)

theorem length_maskFilter_eq {xs : List α} {ys : List β} (bs : List Bool)
    (h : xs.length = ys.length) :
    (maskFilter xs bs).length = (maskFilter ys bs).length := by
  induction xs generalizing ys bs with
  | nil =>
      cases ys with
      | nil => rfl
      | cons y ys => simp at h
  | cons x xs ih =>
      cases ys with
      | nil => simp at h
      | cons y ys =>
          cases bs with
          | nil => rfl
          | cons b bs =>
              cases b with
              | false => exact ih bs (by simpa using h)
              | true =>
                  simp only [maskFilter, if_true, List.length_cons]
                  exact congrArg Nat.succ (ih bs (by simpa using h))

theorem maskFilter_zip {xs : List α} {ys : List β} (bs : List Bool)
    (h : xs.length = ys.length) :
    (maskFilter xs bs).zip (maskFilter ys bs) = maskFilter (xs.zip ys) bs := by
  induction xs generalizing ys bs with
  | nil => rfl
  | cons x xs ih =>
      cases ys with
      | nil => simp at h
      | cons y ys =>
          cases bs with
          | nil => rfl
          | cons b bs =>
              cases b with
              | false => exact ih bs (by simpa using h)
              | true =>
                  simp only [maskFilter, if_true, List.zip_cons_cons]
                  exact congrArg (List.cons (x, y)) (ih bs (by simpa using h))

theorem zip_map_self (g : α → β) (xs : List α) :
    xs.zip (xs.map g) = xs.map fun x => (x, g x) := by
  induction xs with
  | nil => rfl
  | cons x xs ih => simp only [List.map_cons, List.zip_cons_cons, ih]

theorem getD_zip {xs : List α} {ys : List β} {k : ℕ} (hx : k < xs.length)
    (hy : k < ys.length) (a : α) (b : β) :
    (xs.zip ys).getD k (a, b) = (xs.getD k a, ys.getD k b) := by
  have hk : k < (xs.zip ys).length := by
    rw [List.length_zip]; exact lt_min hx hy
  rw [List.getD_eq_getElem _ _ hk, List.getD_eq_getElem _ _ hx,
    List.getD_eq_getElem _ _ hy, List.getElem_zip]

theorem argminSep_eq_none {sep : Coord → Coord → ℚ} {p : Coord} {cs : List Coord}
    (h : argminSep sep p cs = none) : cs = [] := by
  cases cs with
  | nil => rfl
  | cons c cs =>
      exfalso
      rw [argminSep] at h
      cases hrec : argminSep sep p cs with
      | none => rw [hrec] at h; simp at h
      | some jm =>
          rw [hrec] at h
          obtain ⟨j, m⟩ := jm
          by_cases hle : sep p c ≤ m <;> simp [hle] at h

theorem argminSep_spec (sep : Coord → Coord → ℚ) (p : Coord) :
    ∀ (cs : List Coord) (j : ℕ) (m : ℚ), argminSep sep p cs = some (j, m) →
      j < cs.length ∧ m = sep p (cs.getD j (0, 0)) ∧ ∀ c ∈ cs, m ≤ sep p c := by
  intro cs
  induction cs with
  | nil => intro j m h; simp [argminSep] at h
  | cons c cs ih =>
      intro j m h
      rw [argminSep] at h
      cases hrec : argminSep sep p cs with
      | none =>
          rw [hrec] at h
          obtain rfl : cs = [] := argminSep_eq_none hrec
          simp only [Option.some.injEq, Prod.mk.injEq] at h
          obtain ⟨rfl, rfl⟩ := h
          refine ⟨by simp, by simp, ?_⟩
          intro x hx
          rcases List.mem_cons.mp hx with rfl | hx
          · exact le_refl _
          · simp at hx
      | some jm =>
          rw [hrec] at h
          obtain ⟨j', m'⟩ := jm
          dsimp only at h
          obtain ⟨hj', hm', hmin⟩ := ih j' m' hrec
          by_cases hle : sep p c ≤ m'
          · rw [if_pos hle] at h
            simp only [Option.some.injEq, Prod.mk.injEq] at h
            obtain ⟨rfl, rfl⟩ := h
            refine ⟨by simp, by simp, ?_⟩
            intro x hx
            rcases List.mem_cons.mp hx with rfl | hx
            · exact le_refl _
            · exact le_trans hle (hmin x hx)
          · rw [if_neg hle] at h
            simp only [Option.some.injEq, Prod.mk.injEq] at h
            obtain ⟨rfl, rfl⟩ := h
            refine ⟨by simpa using Nat.succ_lt_succ hj', ?_, ?_⟩
            · simpa using hm'
            · intro x hx
              rcases List.mem_cons.mp hx with rfl | hx
              · exact le_of_lt (lt_of_not_le hle)
              · exact hmin x hx

theorem nn_spec (sep : Coord → Coord → ℚ) {cs : List Coord} (p : Coord)
    (h : cs ≠ []) :
    (nn sep cs p).1 < cs.length ∧
      (nn sep cs p).2 = sep p (cs.getD (nn sep cs p).1 (0, 0)) ∧
      ∀ c ∈ cs, (nn sep cs p).2 ≤ sep p c := by
  cases hval : argminSep sep p cs with
  | none => exact absurd (argminSep_eq_none hval) h
  | some jm =>
      obtain ⟨j, m⟩ := jm
      have := argminSep_spec sep p cs j m hval
      simpa [nn, hval] using this

theorem idxOf_lt (sep : Coord → Coord → ℚ) {rows : List FinalRow} (p : Coord)
    (h : rows ≠ []) : idxOf sep rows p < rows.length := by
  have hne : rows.map FinalRow.radec ≠ [] := by simpa using h
  have := (nn_spec sep p hne).1
  simpa [idxOf] using this

theorem nnRow_spec (sep : Coord → Coord → ℚ) {rows : List FinalRow} (p : Coord)
    (h : rows ≠ []) :
    rows.getD (idxOf sep rows p) default ∈ rows ∧
      d2dOf sep rows p = sep p (rows.getD (idxOf sep rows p) default).radec ∧
      ∀ c ∈ rows, d2dOf sep rows p ≤ sep p c.radec := by
  have hne : rows.map FinalRow.radec ≠ [] := by simpa using h
  obtain ⟨hidx, hval, hmin⟩ := nn_spec sep p hne
  have hidx' : idxOf sep rows p < rows.length := idxOf_lt sep p h
  refine ⟨?_, ?_, ?_⟩
  · rw [List.getD_eq_getElem _ _ hidx']
    exact List.getElem_mem _
  · unfold d2dOf idxOf
    rw [hval]
    have hm := @List.getD_map _ _ rows default
      ((nn sep (rows.map FinalRow.radec) p).1) FinalRow.radec
    exact congrArg (sep p) hm
  · intro c hc
    exact hmin c.radec (List.mem_map_of_mem _ hc)

theorem nn_isLeast (sep : Coord → Coord → ℚ) {rows : List FinalRow} (p : Coord)
    (h : rows ≠ []) :
    IsLeast {q : ℚ | ∃ c ∈ rows, q = sep p c.radec} (d2dOf sep rows p) := by
  obtain ⟨hmem, hval, hmin⟩ := nnRow_spec sep p h
  constructor
  · exact ⟨_, hmem, hval⟩
  · rintro q ⟨c, hc, rfl⟩
    exact hmin c hc

theorem crossMatch_length_eq (sep : Coord → Coord → ℚ) (res1 res2 : List FinalRow) :
    (crossMatch sep res1 res2).1.length = (crossMatch sep res1 res2).2.length := by
  show (maskFilter res1 _).length = (maskFilter (res1.map _) _).length
  exact length_maskFilter_eq _ (List.length_map _ _).symm

/-- C1: a source enters the matched output exactly when the separation to its
nearest neighbour, in arcseconds over the pixel scale 0.031, is strictly below
`max_sep = 0.5`; the same test governs the reference cross-match.  The two
`IsLeast` conjuncts identify `d2dOf` as the true nearest-neighbour separation. -/
theorem crossmatch_threshold (sep : Coord → Coord → ℚ) (res1 res2 : List FinalRow)
    (catSel : List CatRow) (catalog1 catalog2 : List FinalRow)
    (h2 : res2 ≠ []) (h1 : catalog1 ≠ []) :
    ((crossMatch sep res1 res2).1 =
        res1.filter fun r => decide (d2dOf sep res2 r.radec / pixelscale < max_sep)) ∧
      (∀ p : Coord, IsLeast {q : ℚ | ∃ c ∈ res2, q = sep p c.radec} (d2dOf sep res2 p)) ∧
      ((crossMatchInput sep catSel catalog1 catalog2).1 =
        (catSel.filter fun c =>
            decide (d2dOf sep catalog1 (c.ra_in, c.dec_in) / pixelscale < max_sep)).map
          fun c => InpRow.mk (c.ra_in, c.dec_in) c.mag1 c.mag2) ∧
      ∀ p : Coord, IsLeast {q : ℚ | ∃ c ∈ catalog1, q = sep p c.radec}
        (d2dOf sep catalog1 p) := by
  refine ⟨?_, fun p => nn_isLeast sep p h2, ?_, fun p => nn_isLeast sep p h1⟩
  · show maskFilter res1 (res1.map fun r => sep_ok (d2dOf sep res2 r.radec)) = _
    rw [maskFilter_map_self]
    rfl
  · show (maskFilter catSel
        (catSel.map fun c => sep_ok (d2dOf sep catalog1 (c.ra_in, c.dec_in)))).map _ = _
    rw [maskFilter_map_self]
    rfl

/-- Witness for C1 at a concrete one-row catalog. -/
theorem crossmatch_threshold_witness :
    (crossMatch sepW [] rowsW).1 =
      [].filter fun r => decide (d2dOf sepW rowsW r.radec / pixelscale < max_sep) :=
  (crossmatch_threshold sepW [] rowsW [] rowsW []
    (by simp [rowsW]) (by simp [rowsW])).1

/-- C2: position `k` of the second matched output holds the filter-2 row whose
separation from the filter-1 row at position `k` is minimal over the whole
filter-2 catalog. -/
theorem crossmatch_pairs_nearest (sep : Coord → Coord → ℚ)
    (res1 res2 : List FinalRow) (h2 : res2 ≠ []) :
    ∀ k, k < (crossMatch sep res1 res2).1.length →
      (crossMatch sep res1 res2).2.getD k default ∈ res2 ∧
        ∀ c ∈ res2,
          sep ((crossMatch sep res1 res2).1.getD k default).radec
              ((crossMatch sep res1 res2).2.getD k default).radec ≤
            sep ((crossMatch sep res1 res2).1.getD k default).radec c.radec := by
  intro k hk
  have hlen : (crossMatch sep res1 res2).1.length = (crossMatch sep res1 res2).2.length :=
    crossMatch_length_eq sep res1 res2
  have hk2 : k < (crossMatch sep res1 res2).2.length := hlen ▸ hk
  have hkz : k < ((crossMatch sep res1 res2).1.zip (crossMatch sep res1 res2).2).length := by
    rw [List.length_zip]
    exact lt_min hk hk2
  have hmemz : ((crossMatch sep res1 res2).1.getD k default,
      (crossMatch sep res1 res2).2.getD k default) ∈
      (crossMatch sep res1 res2).1.zip (crossMatch sep res1 res2).2 := by
    rw [← getD_zip hk hk2 (default : FinalRow) (default : FinalRow),
      List.getD_eq_getElem _ _ hkz]
    exact List.getElem_mem _
  have hzip_eq : (crossMatch sep res1 res2).1.zip (crossMatch sep res1 res2).2 =
      maskFilter (res1.map fun r => (r, res2.getD (idxOf sep res2 r.radec) default))
        (res1.map fun r => sep_ok (d2dOf sep res2 r.radec)) := by
    show (maskFilter res1 _).zip (maskFilter (res1.map _) _) = _
    rw [maskFilter_zip _ (List.length_map _ _).symm, zip_map_self]
  rw [hzip_eq] at hmemz
  obtain ⟨r, _, hpair_eq⟩ := List.mem_map.mp (mem_of_mem_maskFilter hmemz)
  have h1 : (crossMatch sep res1 res2).1.getD k default = r :=
    (congrArg Prod.fst hpair_eq).symm
  have h2' : (crossMatch sep res1 res2).2.getD k default =
      res2.getD (idxOf sep res2 r.radec) default :=
    (congrArg Prod.snd hpair_eq).symm
  obtain ⟨hmem, hval, hmin⟩ := nnRow_spec sep r.radec h2
  constructor
  · rw [h2']
    exact hmem
  · intro c hc
    rw [h1, h2', ← hval]
    exact hmin c hc

/-- Witness for C2 at a concrete one-row pair of catalogs. -/
theorem crossmatch_pairs_nearest_witness :
    (crossMatch sepW rowsW rowsW).2.getD 0 default ∈ rowsW :=
  (crossmatch_pairs_nearest sepW rowsW rowsW (by simp [rowsW]) 0
    (by
      show 0 < (maskFilter rowsW (rowsW.map fun r => sep_ok (d2dOf sepW rowsW r.radec))).length
      rw [maskFilter_map_self]
      norm_num [rowsW, rowW0, sep_ok, d2dOf, nn, argminSep, sepW, pixelscale, max_sep])).1

/-- C8: the two matched tables of every two-filter match have equal length,
and the three matched tables of the reference match have equal length. -/
theorem crossmatch_output_lengths (sep : Coord → Coord → ℚ)
    (finals1 finals2 : List (List FinalRow)) (catSel : List CatRow)
    (catalog1 catalog2 : List FinalRow) :
    (∀ pr ∈ matches_phot sep finals1 finals2, pr.1.length = pr.2.length) ∧
      (crossMatchInput sep catSel catalog1 catalog2).1.length =
        (crossMatchInput sep catSel catalog1 catalog2).2.1.length ∧
      (crossMatchInput sep catSel catalog1 catalog2).2.1.length =
        (crossMatchInput sep catSel catalog1 catalog2).2.2.length := by
  refine ⟨?_, ?_, ?_⟩
  · intro pr hpr
    unfold matches_phot at hpr
    rw [List.mem_flatten] at hpr
    obtain ⟨l, hl, hpr⟩ := hpr
    rw [List.mem_map] at hl
    obtain ⟨r1, _, rfl⟩ := hl
    rw [List.mem_map] at hpr
    obtain ⟨r2, _, rfl⟩ := hpr
    exact crossMatch_length_eq sep r1 r2
  · show ((maskFilter catSel _).map _).length = (maskFilter (catSel.map _) _).length
    rw [List.length_map]
    exact length_maskFilter_eq _ (List.length_map _ _).symm
  · show (maskFilter (catSel.map _) _).length = (maskFilter (catSel.map _) _).length
    exact length_maskFilter_eq _ (by rw [List.length_map, List.length_map])

/-- Witness for C8 at a concrete reference match. -/
theorem crossmatch_output_lengths_witness :
    (crossMatchInput sepW [] rowsW []).1.length =
      (crossMatchInput sepW [] rowsW []).2.1.length :=
  (crossmatch_output_lengths sepW [] [] [] rowsW []).2.1

theorem sorted2_eq_min_max (a b : ℚ) : sorted2 a b = (min a b, max a b) := by
  unfold sorted2
  split
  · next hab => rw [min_eq_left hab, max_eq_right hab]
  · next hab =>
      rw [min_eq_right (le_of_lt (lt_of_not_le hab)),
        max_eq_left (le_of_lt (lt_of_not_le hab))]

/-- C5: the FOV selection keeps exactly the rows whose `ra_in` lies strictly
between the smaller and larger corner RA and whose `dec_in` lies strictly
between Dec at corner (0,0) and Dec at corner (width-1,height-1), in that
order. -/
theorem fov_selection (im : ImageModel) (cat : List CatRow) :
    cat_sel im cat = cat.filter fun c =>
      decide (min (im.wcs 0 0).1 (im.wcs ((im.width : ℚ) - 1) ((im.height : ℚ) - 1)).1
          < c.ra_in) &&
      decide (c.ra_in <
          max (im.wcs 0 0).1 (im.wcs ((im.width : ℚ) - 1) ((im.height : ℚ) - 1)).1) &&
      decide ((im.wcs 0 0).2 < c.dec_in) &&
      decide (c.dec_in < (im.wcs ((im.width : ℚ) - 1) ((im.height : ℚ) - 1)).2) := by
  simp only [cat_sel, sorted2_eq_min_max]

/-- C9: because only the RA limits are sorted, a WCS whose Dec at corner (0,0)
is at least its Dec at corner (width-1,height-1) makes the selection empty. -/
theorem fov_dec_limits_unsorted (im : ImageModel) (cat : List CatRow)
    (h : (im.wcs ((im.width : ℚ) - 1) ((im.height : ℚ) - 1)).2 ≤ (im.wcs 0 0).2) :
    cat_sel im cat = [] := by
  simp only [cat_sel]
  rw [List.filter_eq_nil_iff]
  intro c _
  simp only [Bool.and_eq_true, decide_eq_true_eq]
  intro hcontra
  obtain ⟨⟨_, h3⟩, h4⟩ := hcontra
  exact absurd (lt_trans h3 h4) (not_lt.mpr h)

/-- Witness for C9 on a constant WCS. -/
theorem fov_dec_limits_unsorted_witness :
    cat_sel ⟨2, 2, fun _ _ => (0, 0)⟩ [⟨0, 0, 0, 0, 0⟩] = [] :=
  fov_dec_limits_unsorted ⟨2, 2, fun _ _ => (0, 0)⟩ [⟨0, 0, 0, 0, 0⟩] (le_refl 0)

/-- C6: catalog `i` of the pixel-to-sky step is catalog `i` of the cleaning
step with a `radec` column computed by image `i`'s own WCS at each row's
fitted position, all other columns unchanged. -/
theorem radec_from_own_wcs (images : List ImageModel) (cleans : List (List CleanRow))
    (i : ℕ) (hi : i < images.length) :
    (results_final images cleans).getD i [] =
      (cleans.getD i []).map fun r =>
        FinalRow.mk r ((images.getD i default).wcs r.base.x_fit r.base.y_fit) := by
  unfold results_final
  rw [List.getD_eq_getElem _ _ (by simpa using hi), List.getElem_map, List.getElem_range]

/-- Witness for C6 on a concrete image with a nontrivial WCS. -/
theorem radec_from_own_wcs_witness :
    (results_final imagesW cleansW).getD 0 [] =
      (cleansW.getD 0 []).map (fun r =>
        FinalRow.mk r ((imagesW.getD 0 default).wcs r.base.x_fit r.base.y_fit)) :=
  radec_from_own_wcs imagesW cleansW 0 (by simp [imagesW])

/-- C10: the cleaning loop masks every catalog with the dimensions of the
first image of the set; concretely, a detection inside its own (second)
image's bounds is dropped when it is outside the first image's bounds. -/
theorem clean_uses_first_image_shape :
    (∀ (log10 : ℚ → ℚ) (im0 : ImageModel) (ims : List ImageModel)
        (results : List (List PhotRow)) (i : ℕ), i < ims.length + 1 →
        (results_clean log10 (im0 :: ims) results).getD i [] =
          result_clean log10 (im0.width : ℚ) (im0.height : ℚ) (results.getD i [])) ∧
      (results_clean log10W [imSmallW, imBigW] [[], [rowBigW]]).getD 1 [] = [] ∧
      rowMask (imBigW.width : ℚ) (imBigW.height : ℚ) rowBigW = true := by
  refine ⟨?_, ?_, ?_⟩
  · intro log10 im0 ims results i hi
    unfold results_clean
    rw [List.getD_eq_getElem _ _ (by simpa using hi), List.getElem_map, List.getElem_range]
  · show result_clean log10W (imSmallW.width : ℚ) (imSmallW.height : ℚ) [rowBigW] = []
    unfold result_clean rowMask
    norm_num [rowBigW, imSmallW]
  · unfold rowMask
    norm_num [rowBigW, imBigW]

/-- Witness for C10's universally quantified conjunct at index 0. -/
theorem clean_uses_first_image_shape_witness :
    (results_clean log10W (imSmallW :: [imBigW]) [[], [rowBigW]]).getD 0 [] =
      result_clean log10W (imSmallW.width : ℚ) (imSmallW.height : ℚ)
        ([[], [rowBigW]].getD 0 []) :=
  clean_uses_first_image_shape.1 log10W imSmallW [imBigW] [[], [rowBigW]] 0 (by norm_num)

/-- C7 counterexample: running the notebook on a file system without the
`FIGURES/` directory changes the file system by creating it. -/
theorem pipelineFS_not_identity : pipelineFS [] ≠ [] := by
  simp [pipelineFS, setupFigures]

/-- C7 amended: the run leaves the file system unchanged except that the setup
cell creates the `FIGURES/` directory when it is absent; nothing else is
created or deleted. -/
theorem pipelineFS_only_adds_figures_dir (fs : List String) :
    figures_dir ∈ pipelineFS fs ∧ ∀ p, p ∈ pipelineFS fs ↔ p = figures_dir ∨ p ∈ fs := by
  unfold pipelineFS setupFigures
  by_cases h : figures_dir ∈ fs
  · rw [if_pos h]
    refine ⟨h, fun p => ⟨Or.inr, ?_⟩⟩
    rintro (rfl | hp)
    · exact h
    · exact hp
  · rw [if_neg h]
    refine ⟨List.mem_cons_self _ _, fun p => ?_⟩
    simp [List.mem_cons]

end NRC23
